import Mathlib

/-!
# Verification of the fsdb filesystem record store

Shallow embedding of the fsdb package (src/fsdb) in Lean 4, with theorems
settling the specification claims about path sanitization, the domain
algebra, the LRU cache, the record lifecycle and the handle guards.

Python values are modelled by explicit sum types; Python dicts by
insertion-ordered association lists; Python exceptions by an `Except`-style
outcome type.  Machine-level integers do not occur (Python ints are
arbitrary precision), so `Nat`/`Int` are exact models.
-/

namespace Fsdb

/-- Python exception kinds that the embedded code can raise.  `fsdbError`
and its subclasses mirror src/fsdb/exceptions.py; the others are Python
built-in exceptions. -/
inductive PyExc where
  | fsdbError
  | fsdbObjectDeleted
  | fsdbDatabaseClosed
  | fsdbDomainError
  | fsdbOrderError
  | attributeError
  | keyError
  | typeError
  | runtimeError
  | indexError
  deriving DecidableEq, Repr

/-! ## 4.1 Path tools: `sanitize_filename` (src/fsdb/tools.py lines 9-12)

```python
def sanitize_filename(filename):
    filename = filename.strip().replace(' ', '_')
    return re.sub(r'(?u)[^-\w.]', '_', filename)
```

Strings are modelled as `List Char`.  `str.strip()` removes leading and
trailing whitespace; `pyIsSpace` lists the characters CPython's
`str.isspace` recognises.  The Unicode word class `\w` of `re` is
abstracted as a predicate `isWord`; the theorems assume only that word
characters are never whitespace and that the underscore is a word
character, both true of the real class. -/

/-- Characters removed by Python `str.strip()` (CPython `str.isspace`). -/
def pyIsSpace (c : Char) : Bool :=
  c == ' ' || c == '\t' || c == '\n' || c == '\r' || c == '\x0b' || c == '\x0c'
    || (0x1c ≤ c.toNat && c.toNat ≤ 0x1f) || c.toNat == 0x85 || c.toNat == 0xa0
    || c.toNat == 0x1680 || (0x2000 ≤ c.toNat && c.toNat ≤ 0x200a)
    || c.toNat == 0x2028 || c.toNat == 0x2029 || c.toNat == 0x202f
    || c.toNat == 0x205f || c.toNat == 0x3000

/-- Python `str.strip()`: drop whitespace from both ends. -/
def pyStrip (l : List Char) : List Char :=
  ((l.dropWhile pyIsSpace).reverse.dropWhile pyIsSpace).reverse

/-- Python `str.replace(' ', '_')`. -/
def replaceSpaces (l : List Char) : List Char :=
  l.map (fun c => if c = ' ' then '_' else c)

/-- A character kept (not replaced) by `re.sub(r'(?u)[^-\w.]', '_', ·)`. -/
def keepChar (isWord : Char → Bool) (c : Char) : Bool :=
  isWord c || c == '-' || c == '.'

/-- `re.sub(r'(?u)[^-\w.]', '_', ·)`: the pattern matches single characters,
so the substitution is a character-wise map. -/
def subNonWord (isWord : Char → Bool) (l : List Char) : List Char :=
  l.map (fun c => if keepChar isWord c then c else '_')

/-- `tools.sanitize_filename`, parameterized by the regex word class. -/
def sanitize_filename (isWord : Char → Bool) (l : List Char) : List Char :=
  subNonWord isWord (replaceSpaces (pyStrip l))

/-! helper lemmas for idempotence -/

theorem dropWhile_eq_self_of_forall {p : Char → Bool} {l : List Char}
    (h : ∀ c ∈ l, p c = false) : l.dropWhile p = l := by
  cases l with
  | nil => rfl
  | cons a t =>
    rw [List.dropWhile_cons]
    simp [h a (List.mem_cons_self a t)]

theorem map_eq_self_of_forall {f : Char → Char} {l : List Char}
    (h : ∀ c ∈ l, f c = c) : l.map f = l := by
  induction l with
  | nil => rfl
  | cons a t ih =>
    simp only [List.map_cons, h a (List.mem_cons_self a t)]
    rw [ih (fun c hc => h c (List.mem_cons_of_mem a hc))]

/-- Every character of a sanitized string is kept by the character class. -/
theorem sanitize_chars_kept (isWord : Char → Bool) (hu : isWord '_' = true)
    (l : List Char) : ∀ c ∈ sanitize_filename isWord l, keepChar isWord c = true := by
  intro c hc
  simp only [sanitize_filename, subNonWord, List.mem_map] at hc
  obtain ⟨a, _, ha⟩ := hc
  by_cases hk : keepChar isWord a = true
  · rw [if_pos hk] at ha
    exact ha ▸ hk
  · rw [if_neg hk] at ha
    subst ha
    simp [keepChar, hu]

/-- Kept characters are not whitespace (hence also not `' '`). -/
theorem keep_not_space (isWord : Char → Bool)
    (hw : ∀ c, isWord c = true → pyIsSpace c = false)
    {c : Char} (hk : keepChar isWord c = true) : pyIsSpace c = false := by
  simp only [keepChar, Bool.or_eq_true, beq_iff_eq] at hk
  rcases hk with (h | h) | h
  · exact hw c h
  · subst h; decide
  · subst h; decide

/-- C7: For every input string x, `sanitize_filename` is idempotent:
`sanitize_filename (sanitize_filename x) = sanitize_filename x`, for any
regex word class in which word characters are never whitespace and `_` is
a word character (both hold for Python's Unicode `\w`). -/
theorem c7_sanitize_idempotent (isWord : Char → Bool)
    (hw : ∀ c, isWord c = true → pyIsSpace c = false)
    (hu : isWord '_' = true) (l : List Char) :
    sanitize_filename isWord (sanitize_filename isWord l) = sanitize_filename isWord l := by
  have hkeep := sanitize_chars_kept isWord hu l
  set s := sanitize_filename isWord l with hs
  have hnospace : ∀ c ∈ s, pyIsSpace c = false :=
    fun c hc => keep_not_space isWord hw (hkeep c hc)
  have hstrip : pyStrip s = s := by
    unfold pyStrip
    rw [dropWhile_eq_self_of_forall hnospace]
    rw [dropWhile_eq_self_of_forall (fun c hc => hnospace c (List.mem_reverse.mp hc))]
    exact List.reverse_reverse s
  have hrepl : replaceSpaces s = s := by
    apply map_eq_self_of_forall
    intro c hc
    have : c ≠ ' ' := by
      intro he
      have := hnospace c hc
      rw [he] at this
      exact absurd this (by decide)
    simp [this]
  have hsub : subNonWord isWord s = s := by
    apply map_eq_self_of_forall
    intro c hc
    simp [hkeep c hc]
  show sanitize_filename isWord s = s
  unfold sanitize_filename
  rw [hstrip, hrepl, hsub]

/-- Witness for C7 at the concrete word class `{'_'}` and input `"a b"`. -/
theorem c7_sanitize_idempotent_witness :
    sanitize_filename (fun c => c == '_') (sanitize_filename (fun c => c == '_') ['a', ' ', 'b']) =
      sanitize_filename (fun c => c == '_') ['a', ' ', 'b'] :=
  c7_sanitize_idempotent _
    (fun c h => by
      have hc : c = '_' := by simpa using h
      subst hc; decide)
    (by decide) _

/-! ## 4.2 Domain algebra: `tools.evaluate_domain` (src/fsdb/tools.py lines 71-132)

The processed domain is a Python list whose elements are booleans, strings
(operator tokens) or other objects.  `evaluate_domain` repeatedly runs one
pass of three rewrite phases over the list until a pass changes nothing:

```python
while domain_changed:
    domain_changed = False
    # phase 1: [bool, x, ...] -> [(bool and x), ...]
    if len(domain) >= 2 and isinstance(domain[0], bool) and isinstance(domain[0], bool):
        domain[0] = domain[0] and domain[1]; domain.pop(1); domain_changed = True
    # phase 2: first i with bool,bool,bool at i,i+1,i+2 -> conjoin i+1,i+2
    # phase 3: first i with str,bool,bool  at i,i+1,i+2 -> fold with the op
```

Note the source's phase-1 guard tests `domain[0]` twice, so it fires
whenever the head is a boolean, and `domain[0] and domain[1]` is Python
`and` (returns the second operand when the first is truthy, which may be a
non-boolean). -/

/-- An element of a processed domain list: a boolean, a string, or any
other Python object (opaque). -/
inductive DomElem where
  | bool (b : Bool)
  | str (s : String)
  | other
  deriving DecidableEq, Repr

/-- `isinstance(x, bool)` -/
def DomElem.isBool : DomElem → Bool
  | .bool _ => true
  | _ => false

/-- `isinstance(x, str)` -/
def DomElem.isStr : DomElem → Bool
  | .str _ => true
  | _ => false

/-- Python truthiness of a domain element (`bool(x)`); an `other` object
models the truthy non-str non-bool values that occur in the source. -/
def DomElem.truthy : DomElem → Bool
  | .bool b => b
  | .str s => decide (s ≠ "")
  | .other => true

/-- Python `x and y`: `y` if `x` is truthy, else `x`. -/
def pyAnd (x y : DomElem) : DomElem :=
  if x.truthy then y else x

/-- Phase 1 of the rewrite pass (fires when the head is a boolean and the
list has at least two elements). Returns the new list and whether it fired. -/
def phase1 : List DomElem → List DomElem × Bool
  | x :: y :: t => if x.isBool then (pyAnd x y :: t, true) else (x :: y :: t, false)
  | d => (d, false)

/-- `x` as a Python boolean, when `isinstance(x, bool)`. -/
def DomElem.getBool : DomElem → Option Bool
  | .bool b => some b
  | _ => none

/-- `x` as a Python string, when `isinstance(x, str)`. -/
def DomElem.getStr : DomElem → Option String
  | .str s => some s
  | _ => none

/-- Phase 2: at the first position with three consecutive booleans, replace
the second and third by their conjunction (`domain[i+1] = val2 and val3;
domain.pop(i+2)`). -/
def phase2 : List DomElem → List DomElem × Bool
  | x :: y :: z :: t =>
    match x.getBool, y.getBool, z.getBool with
    | some b1, some b2, some b3 => (.bool b1 :: .bool (b2 && b3) :: t, true)
    | _, _, _ =>
      (x :: (phase2 (y :: z :: t)).1, (phase2 (y :: z :: t)).2)
  | d => (d, false)

/-- Phase 3: at the first position with `str, bool, bool`, fold the two
booleans with the operator (`&` → and, `|` → or); any other operator
raises `FsdbDomainError`. -/
def phase3 : List DomElem → Except Unit (List DomElem × Bool)
  | x :: y :: z :: t =>
    match x.getStr, y.getBool, z.getBool with
    | some op, some b2, some b3 =>
      if op = "&" then .ok (.bool (b2 && b3) :: t, true)
      else if op = "|" then .ok (.bool (b2 || b3) :: t, true)
      else .error ()
    | _, _, _ =>
      match phase3 (y :: z :: t) with
      | .error e => .error e
      | .ok r => .ok (x :: r.1, r.2)
  | d => .ok (d, false)

/-- One pass of the `while` body: the three phases run in order on the
successively rewritten list; the pass reports whether any phase fired. -/
def evalBody (d : List DomElem) : Except Unit (List DomElem × Bool) :=
  match phase3 (phase2 (phase1 d).1).1 with
  | .error e => .error e
  | .ok r3 => .ok (r3.1, (phase1 d).2 || (phase2 (phase1 d).1).2 || r3.2)

/-- The `while domain_changed` loop, with explicit fuel (the loop is run
with fuel `length + 1`, which is proved sufficient below since every pass
that fires shrinks the list). -/
def evalLoop : Nat → List DomElem → Except Unit (List DomElem)
  | 0, d => .ok d
  | n + 1, d =>
    match evalBody d with
    | .error e => .error e
    | .ok (d', ch) => if ch then evalLoop n d' else .ok d'

/-- `tools.evaluate_domain`: empty domain evaluates to `True`; otherwise
run the rewrite loop, then the result must be exactly one boolean
(otherwise `FsdbDomainError`). -/
def evaluate_domain (d : List DomElem) : Except Unit Bool :=
  if d.isEmpty then .ok true
  else
    match evalLoop (d.length + 1) d with
    | .error e => .error e
    | .ok d' =>
      match d' with
      | [.bool b] => .ok b
      | _ => .error ()


/-- Phase 1 reduces the list length when it fires, and leaves the list
unchanged otherwise. -/
theorem phase1_spec (d : List DomElem) :
    ((phase1 d).2 = true → (phase1 d).1.length < d.length) ∧
    ((phase1 d).2 = false → (phase1 d).1 = d) := by
  match d with
  | [] => simp [phase1]
  | [x] => simp [phase1]
  | x :: y :: t =>
    by_cases hx : x.isBool = true
    · refine ⟨fun _ => ?_, fun hc => ?_⟩
      · simp only [phase1, hx, if_pos, List.length_cons]
        omega
      · simp [phase1, hx] at hc
    · simp [phase1, hx]

/-- Phase 2 reduces the list length when it fires, and leaves the list
unchanged otherwise. -/
theorem phase2_spec (d : List DomElem) :
    ((phase2 d).2 = true → (phase2 d).1.length < d.length) ∧
    ((phase2 d).2 = false → (phase2 d).1 = d) := by
  induction d with
  | nil => simp [phase2]
  | cons x rest ih =>
    match rest with
    | [] => simp [phase2]
    | [y] => simp [phase2]
    | y :: z :: t =>
      rw [phase2]
      split
      · refine ⟨fun _ => ?_, fun hc => by simp at hc⟩
        simp only [List.length_cons]
        omega
      · refine ⟨fun hc => ?_, fun hc => ?_⟩
        · dsimp only at hc ⊢
          have := ih.1 hc
          simp only [List.length_cons] at this ⊢
          omega
        · dsimp only at hc ⊢
          rw [ih.2 hc]

/-- Phase 3, when it returns without raising: firing reduces the list
length, not firing leaves the list unchanged. -/
theorem phase3_spec (d : List DomElem) :
    ∀ d' c, phase3 d = .ok (d', c) →
      (c = true → d'.length < d.length) ∧ (c = false → d' = d) := by
  induction d with
  | nil =>
    intro d' c h
    simp only [phase3] at h
    injection h with h1
    injection h1 with h1 h2
    subst h1; subst h2
    exact ⟨fun hc => by simp at hc, fun _ => rfl⟩
  | cons x rest ih =>
    intro d' c h
    match rest with
    | [] =>
      simp only [phase3] at h
      injection h with h1
      injection h1 with h1 h2
      subst h1; subst h2
      exact ⟨fun hc => by simp at hc, fun _ => rfl⟩
    | [y] =>
      simp only [phase3] at h
      injection h with h1
      injection h1 with h1 h2
      subst h1; subst h2
      exact ⟨fun hc => by simp at hc, fun _ => rfl⟩
    | y :: z :: t =>
      rw [phase3] at h
      split at h
      · -- op, bool, bool at the front
        split at h
        · injection h with h1
          injection h1 with h1 h2
          subst h1; subst h2
          refine ⟨fun _ => ?_, fun hc => by simp at hc⟩
          simp only [List.length_cons]
          omega
        · split at h
          · injection h with h1
            injection h1 with h1 h2
            subst h1; subst h2
            refine ⟨fun _ => ?_, fun hc => by simp at hc⟩
            simp only [List.length_cons]
            omega
          · cases h
      · -- recurse on the tail
        split at h
        · cases h
        · rename_i r hr
          injection h with h1
          injection h1 with h1 h2
          subst h1; subst h2
          have hspec := ih r.1 r.2 (by rw [hr])
          refine ⟨fun hc => ?_, fun hc => ?_⟩
          · have := hspec.1 hc
            simp only [List.length_cons] at this ⊢
            omega
          · rw [hspec.2 hc]

/-- One pass of the loop body shrinks the list when it reports a change,
and returns the list unchanged when it reports none. -/
theorem evalBody_spec (d : List DomElem) :
    ∀ d' c, evalBody d = .ok (d', c) →
      (c = true → d'.length < d.length) ∧ (c = false → d' = d) := by
  intro d' c h
  unfold evalBody at h
  rcases h1 : phase1 d with ⟨d1, c1⟩
  rw [h1] at h
  dsimp only at h
  rcases h2 : phase2 d1 with ⟨d2, c2⟩
  rw [h2] at h
  dsimp only at h
  rcases h3 : phase3 d2 with e | ⟨d3, c3⟩ <;> rw [h3] at h
  · cases h
  · dsimp only at h
    injection h with hp
    injection hp with hd hc
    subst hd; subst hc
    have s1 := phase1_spec d
    rw [h1] at s1
    have s2 := phase2_spec d1
    rw [h2] at s2
    have s3 := phase3_spec d2 d3 c3 h3
    constructor
    · intro hc
      -- some phase fired; the others can only keep or shrink the length
      have hle1 : d1.length ≤ d.length := by
        cases c1 with
        | true => exact Nat.le_of_lt (s1.1 rfl)
        | false =>
          have hEq : d1 = d := by simpa using s1.2 rfl
          simp [hEq]
      have hle2 : d2.length ≤ d1.length := by
        cases c2 with
        | true => exact Nat.le_of_lt (s2.1 rfl)
        | false =>
          have hEq : d2 = d1 := by simpa using s2.2 rfl
          simp [hEq]
      have hle3 : d3.length ≤ d2.length := by
        cases c3 with
        | true => exact Nat.le_of_lt (s3.1 rfl)
        | false =>
          have hEq : d3 = d2 := by simpa using s3.2 rfl
          simp [hEq]
      cases c1 with
      | true => exact Nat.lt_of_le_of_lt (Nat.le_trans hle3 hle2) (s1.1 rfl)
      | false =>
        cases c2 with
        | true => exact Nat.lt_of_le_of_lt hle3 (Nat.lt_of_lt_of_le (s2.1 rfl) hle1)
        | false =>
          cases c3 with
          | true =>
            exact Nat.lt_of_lt_of_le (s3.1 rfl) (Nat.le_trans hle2 hle1)
          | false => simp at hc
    · intro hc
      simp only [Bool.or_eq_false_iff] at hc
      obtain ⟨⟨hc1, hc2⟩, hc3⟩ := hc
      subst hc1; subst hc2; subst hc3
      have e3 : d3 = d2 := by simpa using s3.2 rfl
      have e2 : d2 = d1 := by simpa using s2.2 rfl
      have e1 : d1 = d := by simpa using s1.2 rfl
      rw [e3, e2, e1]

/-- With fuel exceeding the list length, the rewrite loop always reaches a
fixpoint: a list on which one more pass reports no change. -/
theorem evalLoop_fix : ∀ n d, d.length < n →
    ∀ d', evalLoop n d = .ok d' → evalBody d' = .ok (d', false) := by
  intro n
  induction n with
  | zero => intro d h; omega
  | succ n ih =>
    intro d hd d' h
    unfold evalLoop at h
    rcases hb : evalBody d with e | ⟨d2, ch⟩ <;> rw [hb] at h
    · cases h
    · dsimp only at h
      cases ch with
      | false =>
        rw [if_neg (by simp)] at h
        injection h with hh
        subst hh
        have := (evalBody_spec d d2 false hb).2 rfl
        rw [this] at hb ⊢
        exact hb
      | true =>
        rw [if_pos rfl] at h
        have hlt := (evalBody_spec d d2 true hb).1 rfl
        exact ih d2 (by omega) d' h

/-- C8: `evaluate_domain` terminates on every finite input sequence: each
applied rewrite pass strictly decreases the sequence length (so fuel
`length + 1` reaches a fixpoint), and once no rewrite applies the function
returns the single remaining boolean, or raises `FsdbDomainError` when the
final sequence is not exactly one boolean. -/
theorem c8_evaluate_domain_terminates (d : List DomElem) :
    (∀ d' c, evalBody d = Except.ok (d', c) → c = true → d'.length < d.length)
    ∧ (∀ d', evalLoop (d.length + 1) d = Except.ok d' →
        evalBody d' = Except.ok (d', false)
        ∧ (d.isEmpty = false →
            evaluate_domain d = match d' with
              | [DomElem.bool b] => Except.ok b
              | _ => Except.error ()))
    ∧ ((∃ b, evaluate_domain d = Except.ok b) ∨ evaluate_domain d = Except.error ()) := by
  refine ⟨fun d' c h hc => (evalBody_spec d d' c h).1 hc, fun d' h => ⟨?_, ?_⟩, ?_⟩
  · exact evalLoop_fix (d.length + 1) d (Nat.lt_succ_self _) d' h
  · intro hne
    unfold evaluate_domain
    rw [hne]
    simp only [Bool.false_eq_true, if_false, h]
  · cases h : evaluate_domain d with
    | ok b => exact Or.inl ⟨b, rfl⟩
    | error e => exact Or.inr rfl

/-- Witness for C8 at the concrete processed domain `[True, False]`: the
first pass fires and shrinks the list from length 2 to length 1. -/
theorem c8_evaluate_domain_terminates_witness :
    ([DomElem.bool false] : List DomElem).length <
      ([DomElem.bool true, DomElem.bool false] : List DomElem).length :=
  (c8_evaluate_domain_terminates [DomElem.bool true, DomElem.bool false]).1
    [DomElem.bool false] true rfl rfl

/-- C9: `evaluate_domain(['|', A, B]) = evaluate_domain(['|', B, A])` for
all booleans A and B, and `evaluate_domain([])` returns `True`. -/
theorem c9_evaluate_domain_or_comm :
    (∀ A B : Bool,
      evaluate_domain [DomElem.str "|", DomElem.bool A, DomElem.bool B] =
        evaluate_domain [DomElem.str "|", DomElem.bool B, DomElem.bool A])
    ∧ evaluate_domain [] = Except.ok true := by
  refine ⟨fun A B => ?_, rfl⟩
  cases A <;> cases B <;> rfl

/-! ## 4.4 Cache: `Cache` (src/fsdb/cache.py)

State: `cache` (a Python dict, modelled as an insertion-ordered
association list with unique keys), `access_list` (a Python list of keys,
least-recently-used first), `cache_size` and `cache_size_limit`.

`sys.getsizeof` is external to the repository; it is modelled by two
parameters: `szV` for `sys.getsizeof(value)` and `szMap` for
`sys.getsizeof(self.cache)` (a function of the dict, since CPython sizes
the dict object itself, not its entries). -/

/-- Keys of a Python dict in insertion order. -/
def dictKeys {K V : Type} (l : List (K × V)) : List K := l.map Prod.fst

/-- `d[k] = v`: update in place if the key exists, else append. -/
def dictSet {K V : Type} [DecidableEq K] : List (K × V) → K → V → List (K × V)
  | [], k, v => [(k, v)]
  | p :: t, k, v => if p.1 = k then (k, v) :: t else p :: dictSet t k v

/-- `d[k]` lookup. -/
def dictGet {K V : Type} [DecidableEq K] : List (K × V) → K → Option V
  | [], _ => none
  | p :: t, k => if p.1 = k then some p.2 else dictGet t k

/-- `del d[k]`. -/
def dictDel {K V : Type} [DecidableEq K] (l : List (K × V)) (k : K) : List (K × V) :=
  l.filter (fun p => decide (p.1 ≠ k))

/-- The in-memory LRU cache (src/fsdb/cache.py lines 10-18). -/
structure Cache (K V : Type) where
  cache : List (K × V)
  access_list : List K
  cache_size : Nat
  cache_size_limit : Nat

/-- `Cache.set_cache_size` (lines 20-22): the limit is
`max(cache_size, cache_size_limit)` when a (truthy) limit is given, else
`int(cache_size * 1.5)`; the float product is exact for the magnitudes
involved, so it is `(cache_size * 3) / 2` rounded down. -/
def Cache.set_cache_size {K V : Type} (s : Cache K V) (cs : Nat) (csl : Option Nat) :
    Cache K V :=
  { s with
    cache_size := cs
    cache_size_limit :=
      match csl with
      | some n => if n ≠ 0 then max cs n else cs * 3 / 2
      | none => cs * 3 / 2 }

/-- `Cache.__init__` (lines 12-18): empty structures, then
`set_cache_size(cache_size if cache_size else 100*(1024**2))`. -/
def Cache.init {K V : Type} (csOpt : Option Nat) : Cache K V :=
  Cache.set_cache_size
    { cache := [], access_list := [], cache_size := 0, cache_size_limit := 0 }
    (match csOpt with
     | some n => if n ≠ 0 then n else 100 * 1024 ^ 2
     | none => 100 * 1024 ^ 2)
    none

/-- `Cache.del_cache` (lines 52-56). -/
def Cache.del_cache {K V : Type} [DecidableEq K] (s : Cache K V) (k : K) : Cache K V :=
  if k ∈ dictKeys s.cache then
    { s with
      access_list := if k ∈ s.access_list then s.access_list.erase k else s.access_list
      cache := dictDel s.cache k }
  else s

/-- The `while sizeof(self.cache) > self.cache_size and len(self.access_list) > 0`
eviction loop inside `to_cache` (lines 38-40), with explicit fuel.  Each
productive iteration deletes the head of `access_list`; under the cache
invariant the head is a key of the dict, so `access_list` shrinks each
time and fuel `access_list.length` suffices (on states violating the
invariant the Python loop would not terminate; the fuel then returns the
current state, which is never reached from the public API). -/
def Cache.evict {K V : Type} [DecidableEq K] (szMap : List (K × V) → Nat) :
    Nat → Cache K V → Cache K V
  | 0, s => s
  | n + 1, s =>
    match s.access_list with
    | [] => s
    | k :: _ =>
      if szMap s.cache > s.cache_size then Cache.evict szMap n (s.del_cache k) else s

/-- `Cache.to_cache` (lines 27-40): reject values larger than
`cache_size`; otherwise insert/replace and promote the key to the
most-recently-used end; when `sizeof(self.cache)` exceeds
`cache_size_limit`, run the eviction loop. -/
def Cache.to_cache {K V : Type} [DecidableEq K] (szV : V → Nat)
    (szMap : List (K × V) → Nat) (s : Cache K V) (k : K) (v : V) : Cache K V :=
  if szV v > s.cache_size then s
  else
    let s1 : Cache K V :=
      { s with
        cache := dictSet s.cache k v
        access_list :=
          (if k ∈ s.access_list then s.access_list.erase k else s.access_list) ++ [k] }
    if szMap s1.cache > s1.cache_size_limit then
      Cache.evict szMap s1.access_list.length s1
    else s1

/-- `Cache.from_cache` (lines 42-50): on hit, promote to the MRU end and
return the value; on miss return `None`. -/
def Cache.from_cache {K V : Type} [DecidableEq K] (s : Cache K V) (k : K) :
    Cache K V × Option V :=
  if k ∈ dictKeys s.cache then
    ({ s with
       access_list :=
         (if k ∈ s.access_list then s.access_list.erase k else s.access_list) ++ [k] },
     dictGet s.cache k)
  else (s, none)

/-- `Cache.clear` (lines 58-60). -/
def Cache.clear {K V : Type} (s : Cache K V) : Cache K V :=
  { s with cache := [], access_list := [] }

/-- States reachable from a fresh `Cache` by any sequence of `to_cache`,
`from_cache`, `del_cache` and `clear` calls (the size estimator of the
runtime is fixed for the whole sequence). -/
inductive Cache.Reachable {K V : Type} [DecidableEq K] (szV : V → Nat)
    (szMap : List (K × V) → Nat) : Cache K V → Prop where
  | init (csOpt : Option Nat) : Cache.Reachable szV szMap (Cache.init csOpt)
  | to_cache {s : Cache K V} (k : K) (v : V) :
      Cache.Reachable szV szMap s → Cache.Reachable szV szMap (s.to_cache szV szMap k v)
  | from_cache {s : Cache K V} (k : K) :
      Cache.Reachable szV szMap s → Cache.Reachable szV szMap (s.from_cache k).1
  | del_cache {s : Cache K V} (k : K) :
      Cache.Reachable szV szMap s → Cache.Reachable szV szMap (s.del_cache k)
  | clear {s : Cache K V} :
      Cache.Reachable szV szMap s → Cache.Reachable szV szMap s.clear

/-- The cache consistency invariant: `access_list` has no duplicates, the
dict's keys have no duplicates, and both hold exactly the same key set. -/
def CacheInv {K V : Type} (s : Cache K V) : Prop :=
  s.access_list.Nodup ∧ (dictKeys s.cache).Nodup ∧
    ∀ k, k ∈ s.access_list ↔ k ∈ dictKeys s.cache

/-! dict and promotion lemmas for the cache invariant -/

theorem mem_dictKeys_dictSet {K V : Type} [DecidableEq K] (l : List (K × V)) (k : K)
    (v : V) (a : K) : a ∈ dictKeys (dictSet l k v) ↔ a ∈ dictKeys l ∨ a = k := by
  induction l with
  | nil => simp [dictSet, dictKeys]
  | cons p t ih =>
    have hstep : dictSet (p :: t) k v =
        if p.1 = k then (k, v) :: t else p :: dictSet t k v := rfl
    by_cases hp : p.1 = k
    · rw [hstep, if_pos hp]
      simp only [dictKeys, List.map_cons, List.mem_cons, hp]
      tauto
    · rw [hstep, if_neg hp]
      simp only [dictKeys, List.map_cons, List.mem_cons]
      rw [show (List.map Prod.fst (dictSet t k v)) = dictKeys (dictSet t k v) from rfl, ih]
      tauto

theorem nodup_dictKeys_dictSet {K V : Type} [DecidableEq K] (l : List (K × V)) (k : K)
    (v : V) (h : (dictKeys l).Nodup) : (dictKeys (dictSet l k v)).Nodup := by
  induction l with
  | nil => simp [dictSet, dictKeys]
  | cons p t ih =>
    simp only [dictKeys, List.map_cons, List.nodup_cons] at h
    by_cases hp : p.1 = k
    · simp only [dictSet, if_pos hp, dictKeys, List.map_cons, List.nodup_cons]
      exact ⟨hp ▸ h.1, h.2⟩
    · simp only [dictSet, if_neg hp, dictKeys, List.map_cons, List.nodup_cons]
      refine ⟨?_, ih h.2⟩
      rw [show (List.map Prod.fst (dictSet t k v)) = dictKeys (dictSet t k v) from rfl,
        mem_dictKeys_dictSet]
      rintro (hm | hm)
      · exact h.1 hm
      · exact hp hm

theorem dictKeys_dictDel {K V : Type} [DecidableEq K] (l : List (K × V)) (k : K) :
    dictKeys (dictDel l k) = (dictKeys l).filter (fun x => decide (x ≠ k)) := by
  induction l with
  | nil => rfl
  | cons p t ih =>
    simp only [dictDel, dictKeys, List.filter_cons, List.map_cons] at *
    by_cases hp : p.1 = k
    · simp only [hp, decide_not, decide_eq_true_eq] at *
      simp [ih]
    · simp only [decide_not] at *
      have hd : (decide (p.1 = k)) = false := by simpa using hp
      simp only [hd, Bool.not_false, if_pos]
      simp only [dictKeys, List.map_cons]
      rw [ih]

/-- Promoting a key to the MRU end (`remove`-if-present then `append`)
keeps the access list duplicate-free. -/
theorem promote_nodup {K : Type} [DecidableEq K] (al : List K) (k : K) (h : al.Nodup) :
    ((if k ∈ al then al.erase k else al) ++ [k]).Nodup := by
  rw [List.nodup_append]
  refine ⟨?_, List.nodup_singleton k, ?_⟩
  · by_cases hk : k ∈ al
    · rw [if_pos hk]; exact h.erase k
    · rw [if_neg hk]; exact h
  · intro a ha hb
    have hak : a = k := by simpa using hb
    subst hak
    by_cases hk : a ∈ al
    · rw [if_pos hk] at ha
      exact absurd ha (by simp [h.mem_erase_iff])
    · rw [if_neg hk] at ha
      exact hk ha

/-- Membership in a promoted access list. -/
theorem mem_promote {K : Type} [DecidableEq K] (al : List K) (k a : K) (h : al.Nodup) :
    a ∈ (if k ∈ al then al.erase k else al) ++ [k] ↔ (a ∈ al ∨ a = k) := by
  rw [List.mem_append]
  by_cases hk : k ∈ al
  · rw [if_pos hk, h.mem_erase_iff]
    simp only [List.mem_singleton]
    constructor
    · rintro (⟨_, hm⟩ | hm)
      · exact Or.inl hm
      · exact Or.inr hm
    · rintro (hm | hm)
      · by_cases hak : a = k
        · exact Or.inr hak
        · exact Or.inl ⟨hak, hm⟩
      · exact Or.inr hm
  · rw [if_neg hk]
    simp

/-- `del_cache` preserves the invariant. -/
theorem CacheInv.del_cache {K V : Type} [DecidableEq K] {s : Cache K V}
    (h : CacheInv s) (k : K) : CacheInv (s.del_cache k) := by
  obtain ⟨hA, hK, hIff⟩ := h
  unfold Cache.del_cache
  by_cases hk : k ∈ dictKeys s.cache
  · rw [if_pos hk]
    have hkA : k ∈ s.access_list := (hIff k).mpr hk
    refine ⟨?_, ?_, ?_⟩
    · simp only [if_pos hkA]
      exact hA.erase k
    · rw [dictKeys_dictDel]
      exact hK.filter _
    · intro a
      simp only [if_pos hkA]
      rw [hA.mem_erase_iff, dictKeys_dictDel, List.mem_filter]
      simp only [decide_eq_true_eq]
      rw [← hIff a]
      tauto
  · rw [if_neg hk]
    exact ⟨hA, hK, hIff⟩

/-- The eviction loop preserves the invariant (it only calls `del_cache`). -/
theorem CacheInv.evict {K V : Type} [DecidableEq K] (szMap : List (K × V) → Nat) :
    ∀ (n : Nat) {s : Cache K V}, CacheInv s → CacheInv (Cache.evict szMap n s) := by
  intro n
  induction n with
  | zero => intro s h; exact h
  | succ n ih =>
    intro s h
    unfold Cache.evict
    cases hal : s.access_list with
    | nil => exact h
    | cons k t =>
      dsimp only
      split
      · exact ih (h.del_cache k)
      · exact h

/-- `to_cache` preserves the invariant. -/
theorem CacheInv.to_cache {K V : Type} [DecidableEq K] (szV : V → Nat)
    (szMap : List (K × V) → Nat) {s : Cache K V} (h : CacheInv s) (k : K) (v : V) :
    CacheInv (s.to_cache szV szMap k v) := by
  obtain ⟨hA, hK, hIff⟩ := h
  unfold Cache.to_cache
  by_cases hrej : szV v > s.cache_size
  · rw [if_pos hrej]
    exact ⟨hA, hK, hIff⟩
  · rw [if_neg hrej]
    have hs1 : CacheInv
        { s with
          cache := dictSet s.cache k v
          access_list :=
            (if k ∈ s.access_list then s.access_list.erase k else s.access_list) ++ [k] } := by
      refine ⟨promote_nodup _ _ hA, nodup_dictKeys_dictSet _ _ _ hK, ?_⟩
      intro a
      rw [mem_promote _ _ _ hA]
      simp only [mem_dictKeys_dictSet]
      rw [← hIff a]
    dsimp only
    split
    · exact CacheInv.evict szMap _ hs1
    · exact hs1

/-- `from_cache` preserves the invariant. -/
theorem CacheInv.from_cache {K V : Type} [DecidableEq K] {s : Cache K V}
    (h : CacheInv s) (k : K) : CacheInv (s.from_cache k).1 := by
  obtain ⟨hA, hK, hIff⟩ := h
  unfold Cache.from_cache
  by_cases hk : k ∈ dictKeys s.cache
  · rw [if_pos hk]
    refine ⟨promote_nodup _ _ hA, hK, ?_⟩
    intro a
    rw [mem_promote _ _ _ hA]
    rw [← hIff a]
    constructor
    · rintro (hm | hm)
      · exact hm
      · exact hm ▸ (hIff k).mpr hk
    · exact Or.inl
  · rw [if_neg hk]
    exact ⟨hA, hK, hIff⟩

/-- A fresh cache satisfies the invariant. -/
theorem cacheInv_init {K V : Type} (csOpt : Option Nat) :
    CacheInv (Cache.init (K := K) (V := V) csOpt) := by
  refine ⟨List.nodup_nil, List.nodup_nil, ?_⟩
  intro k
  simp [Cache.init, Cache.set_cache_size, dictKeys]

/-- C10: in every state reachable from a fresh Cache by any sequence of
`to_cache`, `from_cache`, `del_cache` and `clear` calls, the set of keys
in `access_list` equals the set of keys of the `cache` mapping, and
`access_list` (like the dict's key sequence) contains each key at most
once. -/
theorem c10_cache_invariant {K V : Type} [DecidableEq K] (szV : V → Nat)
    (szMap : List (K × V) → Nat) (s : Cache K V)
    (h : Cache.Reachable szV szMap s) : CacheInv s := by
  induction h with
  | init csOpt => exact cacheInv_init csOpt
  | to_cache k v _ ih => exact ih.to_cache szV szMap k v
  | from_cache k _ ih => exact ih.from_cache k
  | del_cache k _ ih => exact ih.del_cache k
  | clear _ ih =>
    exact ⟨List.nodup_nil, List.nodup_nil, fun k => by simp [Cache.clear, dictKeys]⟩

/-- Witness for C10: the invariant for the concrete reachable state
obtained by one `to_cache` on a fresh cache. -/
theorem c10_cache_invariant_witness :
    CacheInv ((Cache.init (K := Nat) (V := Nat) (some 10)).to_cache
      (fun _ => 1) (fun l => l.length) 5 7) :=
  c10_cache_invariant (fun _ => 1) (fun l => l.length) _
    (Cache.Reachable.to_cache 5 7 (Cache.Reachable.init (some 10)))

/-! ### C5: the LRU bound

`to_cache` triggers eviction on `sys.getsizeof(self.cache)`, the size of
the dict object itself.  CPython's `sys.getsizeof` of a dict accounts for
the dict's index table and entry slots only — never for the sizes of the
held keys and values. -/

/-- Modelled from CPython (64-bit): `sys.getsizeof({})` is 64 bytes and a
dict holding 1 to 5 entries reports 232 bytes, independently of the sizes
of its keys and values; larger dicts grow with the entry count only.
Only lengths 0..3 are relied on below. -/
def pyDictSizeof (n : Nat) : Nat :=
  if n = 0 then 64 else if n ≤ 5 then 232 else 64 + 104 * n

/-- C5 counterexample: with `cache_size = N·s` for `N = 2`, `s = 10^6`
(so `cache_size_limit = 3·10^6`), after `N+1 = 3` puts of distinct keys
whose values each have `sys.getsizeof` equal to `s`, the first-inserted
key 1 is STILL PRESENT in the cache — the dict's own `getsizeof` (232
bytes) never exceeds the limit, so no eviction takes place, contradicting
the claim that the key is absent. -/
theorem c5_lru_counterexample :
    1 ∈ dictKeys (((((Cache.init (K := Nat) (V := Nat) (some 2000000)).to_cache
      (fun v => v) (fun l => pyDictSizeof l.length) 1 1000000).to_cache
      (fun v => v) (fun l => pyDictSizeof l.length) 2 1000000).to_cache
      (fun v => v) (fun l => pyDictSizeof l.length) 3 1000000).cache) := by decide

/-- C5 amended: the eviction trigger of `to_cache` measures
`sys.getsizeof` of the cache dict, not the sum of entry sizes; after N+1
(= 3, N = 2) puts of distinct keys whose entries each fit in `cache_size`,
every key — in particular the first-inserted one — remains in the cache
whenever the dict's own size measure never exceeds `cache_size_limit`
(as with CPython's `getsizeof` for any large `cache_size`). -/
theorem c5_lru_amended {K V : Type} [DecidableEq K] (szV : V → Nat)
    (szMap : List (K × V) → Nat) (cs limit : Nat) (k1 k2 k3 : K) (v1 v2 v3 : V)
    (hd12 : k1 ≠ k2) (hd13 : k1 ≠ k3) (hd23 : k2 ≠ k3)
    (hv1 : szV v1 ≤ cs) (hv2 : szV v2 ≤ cs) (hv3 : szV v3 ≤ cs)
    (hmap : ∀ l : List (K × V), l.length ≤ 3 → szMap l ≤ limit) :
    dictKeys ((((⟨[], [], cs, limit⟩ : Cache K V).to_cache szV szMap k1 v1).to_cache
      szV szMap k2 v2).to_cache szV szMap k3 v3).cache = [k1, k2, k3] := by
  have hm1 := hmap [(k1, v1)] (by simp)
  have hm2 := hmap [(k1, v1), (k2, v2)] (by simp)
  have hm3 := hmap [(k1, v1), (k2, v2), (k3, v3)] (by simp)
  have h1 : (⟨[], [], cs, limit⟩ : Cache K V).to_cache szV szMap k1 v1
      = ⟨[(k1, v1)], [k1], cs, limit⟩ := by
    unfold Cache.to_cache
    rw [if_neg (show ¬ szV v1 > cs by omega)]
    dsimp only
    rw [if_neg (List.not_mem_nil k1)]
    rw [show dictSet ([] : List (K × V)) k1 v1 = [(k1, v1)] from rfl]
    rw [if_neg (show ¬ szMap [(k1, v1)] > limit by omega)]
    rfl
  rw [h1]
  have h2 : (⟨[(k1, v1)], [k1], cs, limit⟩ : Cache K V).to_cache szV szMap k2 v2
      = ⟨[(k1, v1), (k2, v2)], [k1, k2], cs, limit⟩ := by
    unfold Cache.to_cache
    rw [if_neg (show ¬ szV v2 > cs by omega)]
    dsimp only
    have hk2 : k2 ∉ ([k1] : List K) := by simp [Ne.symm hd12]
    rw [if_neg hk2]
    have hset : dictSet [(k1, v1)] k2 v2 = [(k1, v1), (k2, v2)] := by
      simp [dictSet, hd12]
    rw [hset]
    rw [if_neg (show ¬ szMap [(k1, v1), (k2, v2)] > limit by omega)]
    rfl
  rw [h2]
  have h3 : (⟨[(k1, v1), (k2, v2)], [k1, k2], cs, limit⟩ : Cache K V).to_cache szV szMap k3 v3
      = ⟨[(k1, v1), (k2, v2), (k3, v3)], [k1, k2, k3], cs, limit⟩ := by
    unfold Cache.to_cache
    rw [if_neg (show ¬ szV v3 > cs by omega)]
    dsimp only
    have hk3 : k3 ∉ ([k1, k2] : List K) := by simp [Ne.symm hd13, Ne.symm hd23]
    rw [if_neg hk3]
    have hset : dictSet [(k1, v1), (k2, v2)] k3 v3 = [(k1, v1), (k2, v2), (k3, v3)] := by
      simp [dictSet, hd13, hd23]
    rw [hset]
    rw [if_neg (show ¬ szMap [(k1, v1), (k2, v2), (k3, v3)] > limit by omega)]
    rfl
  rw [h3]
  rfl

/-- Witness for C5 amended at the concrete inputs of the counterexample. -/
theorem c5_lru_amended_witness :
    dictKeys ((((⟨[], [], 2000000, 3000000⟩ : Cache Nat Nat).to_cache
      (fun v => v) (fun l => pyDictSizeof l.length) 1 1000000).to_cache
      (fun v => v) (fun l => pyDictSizeof l.length) 2 1000000).to_cache
      (fun v => v) (fun l => pyDictSizeof l.length) 3 1000000).cache = [1, 2, 3] :=
  c5_lru_amended _ _ 2000000 3000000 1 2 3 1000000 1000000 1000000
    (by decide) (by decide) (by decide) (by decide) (by decide) (by decide)
    (by
      intro l hl
      simp only [pyDictSizeof]
      split
      · omega
      · split
        · omega
        · omega)

/-! ## 4.3 Field: the datetime wire format (src/fsdb/field.py)

```python
DATETIME_FORMAT = '%Y-%m-%d_%H-%M-%S.%f'  # MUST BE filename compatible!!!!!
def val2str(self, val): ... datetime.datetime.strftime(val, self.DATETIME_FORMAT)
def str2val(self, val_str): ... datetime.datetime.strptime(val_str, self.DATETIME_FORMAT)
```

Note the separator between the date and the time is an underscore `_` in
the source, not the `T` stated in the specification.

`strftime`/`strptime` are modelled for this fixed format: every Python
`datetime` has `year ≤ 9999`, `month/day/hour/minute/second < 100` and
`microsecond < 10^6`, so each directive emits exactly its zero-padded
fixed width; the parser is modelled on those canonical fixed-width
strings. -/

/-- A Python `datetime.datetime` value. -/
structure PyDatetime where
  year : Nat
  month : Nat
  day : Nat
  hour : Nat
  minute : Nat
  second : Nat
  microsecond : Nat
  deriving DecidableEq, Repr

/-- The zero-padded `w`-digit decimal rendering of `n` (exact for
`n < 10^w`, which holds for every `datetime` component). -/
def padNum : Nat → Nat → List Char
  | 0, _ => []
  | w + 1, n => padNum w (n / 10) ++ [Char.ofNat (48 + n % 10)]

/-- `Field.val2str` for a datetime field: `strftime` with
`DATETIME_FORMAT = '%Y-%m-%d_%H-%M-%S.%f'`. -/
def val2str_datetime (d : PyDatetime) : List Char :=
  padNum 4 d.year ++ ['-'] ++ padNum 2 d.month ++ ['-'] ++ padNum 2 d.day ++ ['_']
    ++ padNum 2 d.hour ++ ['-'] ++ padNum 2 d.minute ++ ['-'] ++ padNum 2 d.second
    ++ ['.'] ++ padNum 6 d.microsecond

/-- The wire format the SPEC claims (`%Y-%m-%dT%H-%M-%S.%f`, with a `T`
separator); written from the spec's words, for comparison with
`val2str_datetime` which is written from the source. -/
def spec_val2str_datetime (d : PyDatetime) : List Char :=
  padNum 4 d.year ++ ['-'] ++ padNum 2 d.month ++ ['-'] ++ padNum 2 d.day ++ ['T']
    ++ padNum 2 d.hour ++ ['-'] ++ padNum 2 d.minute ++ ['-'] ++ padNum 2 d.second
    ++ ['.'] ++ padNum 6 d.microsecond

/-- Read exactly `w` decimal digits, extending the accumulator. -/
def readFixed : Nat → Nat → List Char → Option (Nat × List Char)
  | 0, acc, l => some (acc, l)
  | _ + 1, _, [] => none
  | w + 1, acc, c :: t =>
    if c.isDigit then readFixed w (acc * 10 + (c.toNat - 48)) t else none

/-- Expect one literal character. -/
def expectChar (c : Char) : List Char → Option (List Char)
  | [] => none
  | c' :: t => if c' = c then some t else none

/-- `Field.str2val` for a datetime field: `strptime` with
`DATETIME_FORMAT`, on canonical fixed-width strings. -/
def str2val_datetime (l : List Char) : Option PyDatetime :=
  (readFixed 4 0 l).bind fun py =>
  (expectChar '-' py.2).bind fun l1 =>
  (readFixed 2 0 l1).bind fun pmo =>
  (expectChar '-' pmo.2).bind fun l2 =>
  (readFixed 2 0 l2).bind fun pda =>
  (expectChar '_' pda.2).bind fun l3 =>
  (readFixed 2 0 l3).bind fun ph =>
  (expectChar '-' ph.2).bind fun l4 =>
  (readFixed 2 0 l4).bind fun pmi =>
  (expectChar '-' pmi.2).bind fun l5 =>
  (readFixed 2 0 l5).bind fun ps =>
  (expectChar '.' ps.2).bind fun l6 =>
  (readFixed 6 0 l6).bind fun pus =>
  match pus.2 with
  | [] => some ⟨py.1, pmo.1, pda.1, ph.1, pmi.1, ps.1, pus.1⟩
  | _ => none

theorem padNum_length (w : Nat) : ∀ n, (padNum w n).length = w := by
  induction w with
  | zero => intro n; rfl
  | succ w ih => intro n; simp [padNum, ih]

theorem digit_isDigit (m : Nat) (h : m < 10) : (Char.ofNat (48 + m)).isDigit = true := by
  interval_cases m <;> decide

theorem digit_toNat (m : Nat) (h : m < 10) : (Char.ofNat (48 + m)).toNat = 48 + m := by
  interval_cases m <;> decide

/-- Reading `a + b` digits is reading `a` digits and then `b` digits. -/
theorem readFixed_add (a : Nat) : ∀ b acc (l : List Char),
    readFixed (a + b) acc l =
      (readFixed a acc l).bind fun p => readFixed b p.1 p.2 := by
  induction a with
  | zero =>
    intro b acc l
    simp [readFixed]
  | succ a ih =>
    intro b acc l
    cases l with
    | nil =>
      rw [show a + 1 + b = (a + b) + 1 by omega]
      simp [readFixed]
    | cons c t =>
      rw [show a + 1 + b = (a + b) + 1 by omega]
      by_cases hc : c.isDigit = true
      · simp only [readFixed, hc, if_pos]
        exact ih b _ t
      · simp [readFixed, hc]

/-- Reading back a zero-padded fixed-width number. -/
theorem readFixed_padNum (k : Nat) : ∀ acc n (rest : List Char), n < 10 ^ k →
    readFixed k acc (padNum k n ++ rest) = some (acc * 10 ^ k + n, rest) := by
  induction k with
  | zero =>
    intro acc n rest h
    have hn : n = 0 := by simpa using Nat.lt_one_iff.mp (by simpa using h)
    subst hn
    simp [padNum, readFixed]
  | succ k ih =>
    intro acc n rest h
    have hdiv : n / 10 < 10 ^ k := by
      rw [Nat.div_lt_iff_lt_mul (by norm_num)]
      calc n < 10 ^ (k + 1) := h
      _ = 10 ^ k * 10 := by ring
    have hmod : n % 10 < 10 := Nat.mod_lt _ (by norm_num)
    rw [show padNum (k + 1) n = padNum k (n / 10) ++ [Char.ofNat (48 + n % 10)] from rfl]
    rw [List.append_assoc]
    rw [show k + 1 = k + 1 from rfl, readFixed_add k 1 acc _]
    rw [ih acc (n / 10) _ hdiv]
    rw [Option.some_bind]
    rw [show ([Char.ofNat (48 + n % 10)] ++ rest : List Char)
      = Char.ofNat (48 + n % 10) :: rest from rfl]
    simp only [readFixed, digit_isDigit _ hmod, if_pos, digit_toNat _ hmod]
    have h48 : 48 + n % 10 - 48 = n % 10 := by omega
    rw [h48, pow_succ]
    have hexp : (acc * 10 ^ k + n / 10) * 10 + n % 10
        = acc * (10 ^ k * 10) + (10 * (n / 10) + n % 10) := by ring
    rw [hexp, Nat.div_add_mod]

theorem expectChar_cons_self (c : Char) (t : List Char) :
    expectChar c (c :: t) = some t := by simp [expectChar]

/-- C3 counterexample: at the concrete datetime 2000-01-02 03:04:05.000006
the source's `val2str` produces `2000-01-02_03-04-05.000006` — the
separator between date and time is `_`, not the `T` the claim states. -/
theorem c3_datetime_wire_format_counterexample :
    val2str_datetime ⟨2000, 1, 2, 3, 4, 5, 6⟩ = "2000-01-02_03-04-05.000006".toList
    ∧ val2str_datetime ⟨2000, 1, 2, 3, 4, 5, 6⟩ ≠
        spec_val2str_datetime ⟨2000, 1, 2, 3, 4, 5, 6⟩ := by
  constructor
  · decide
  · decide

/-- C3 amended: for every datetime value, `Field.val2str` produces and
`Field.str2val` parses the wire format `%Y-%m-%d_%H-%M-%S.%f` — with an
underscore between date and time (six-digit microseconds): the round trip
is the identity, and the character at index 10 (after the 10-character
date prefix) is `_`. -/
theorem c3_datetime_wire_format_amended (d : PyDatetime)
    (hy : d.year < 10 ^ 4) (hmo : d.month < 10 ^ 2) (hda : d.day < 10 ^ 2)
    (hh : d.hour < 10 ^ 2) (hmi : d.minute < 10 ^ 2) (hs : d.second < 10 ^ 2)
    (hus : d.microsecond < 10 ^ 6) :
    str2val_datetime (val2str_datetime d) = some d
    ∧ ∃ pre post : List Char, val2str_datetime d = pre ++ '_' :: post ∧ pre.length = 10 := by
  constructor
  · unfold val2str_datetime str2val_datetime
    simp only [List.append_assoc]
    rw [readFixed_padNum 4 0 d.year _ hy, Option.some_bind]
    dsimp only
    simp only [List.cons_append, List.nil_append]
    rw [expectChar_cons_self, Option.some_bind]
    rw [readFixed_padNum 2 0 d.month _ hmo, Option.some_bind]
    dsimp only
    rw [expectChar_cons_self, Option.some_bind]
    rw [readFixed_padNum 2 0 d.day _ hda, Option.some_bind]
    dsimp only
    rw [expectChar_cons_self, Option.some_bind]
    rw [readFixed_padNum 2 0 d.hour _ hh, Option.some_bind]
    dsimp only
    rw [expectChar_cons_self, Option.some_bind]
    rw [readFixed_padNum 2 0 d.minute _ hmi, Option.some_bind]
    dsimp only
    rw [expectChar_cons_self, Option.some_bind]
    rw [readFixed_padNum 2 0 d.second _ hs, Option.some_bind]
    dsimp only
    rw [expectChar_cons_self, Option.some_bind]
    rw [show padNum 6 d.microsecond
      = padNum 6 d.microsecond ++ ([] : List Char) from (List.append_nil _).symm]
    rw [readFixed_padNum 6 0 d.microsecond _ hus, Option.some_bind]
    simp
  · refine ⟨padNum 4 d.year ++ ['-'] ++ padNum 2 d.month ++ ['-'] ++ padNum 2 d.day,
      padNum 2 d.hour ++ ['-'] ++ padNum 2 d.minute ++ ['-'] ++ padNum 2 d.second
        ++ ['.'] ++ padNum 6 d.microsecond, ?_, ?_⟩
    · simp [val2str_datetime, List.append_assoc]
    · simp [padNum_length]

/-- Witness for C3 amended at the datetime 2000-01-02 03:04:05.000006. -/
theorem c3_datetime_wire_format_amended_witness :
    str2val_datetime (val2str_datetime ⟨2000, 1, 2, 3, 4, 5, 6⟩) =
      some ⟨2000, 1, 2, 3, 4, 5, 6⟩
    ∧ ∃ pre post : List Char,
        val2str_datetime ⟨2000, 1, 2, 3, 4, 5, 6⟩ = pre ++ '_' :: post ∧ pre.length = 10 :=
  c3_datetime_wire_format_amended ⟨2000, 1, 2, 3, 4, 5, 6⟩
    (by decide) (by decide) (by decide) (by decide) (by decide) (by decide) (by decide)

/-! ## Handle guards (record.py lines 34-41, table.py lines 43-52,
database.py lines 18-42)

```python
# record.py
def __getattribute__(self, name):
    table = object.__getattribute__(self, 'table')
    table_deleted = object.__getattribute__(table, '_deleted') if table else True
    record_deleted = object.__getattribute__(self, '_deleted')
    if table_deleted or record_deleted:
        FsdbError('Can not access deleted records!')   # constructed, never raised
    else:
        return object.__getattribute__(self, name)
```

The Table guard raises `FsdbObjectDeleted` when the table is deleted, then
dereferences `database._closed`; the `Database` class of src/fsdb/database.py
never defines `_closed` (nor a `close()` method, a deleted flag, or any
`__getattribute__` guard), so that lookup raises `AttributeError`. -/

/-- Outcome of a Python attribute access; `returned none` models the
implicit `return None` of a function body that falls through. -/
inductive AttrResult (α : Type) where
  | returned (v : Option α)
  | raised (e : PyExc)
  deriving DecidableEq, Repr

/-- `Record.__getattribute__` (record.py lines 34-41): when the record or
its table is deleted, an `FsdbError` is constructed but NOT raised, and
the function falls through returning `None`; otherwise the attribute is
returned. -/
def record_getattribute {α : Type} (table_deleted record_deleted : Bool)
    (attr : α) : AttrResult α :=
  if table_deleted || record_deleted then
    AttrResult.returned none
  else
    AttrResult.returned (some attr)

/-- `Table.__getattribute__` (table.py lines 43-52).  `dbClosed` is the
result of looking up `_closed` on the owning database: `none` when the
attribute does not exist, in which case `object.__getattribute__` raises
`AttributeError`. -/
def table_getattribute {α : Type} (self_deleted : Bool) (database_present : Bool)
    (dbClosed : Option Bool) (attr : α) : AttrResult α :=
  if self_deleted then AttrResult.raised PyExc.fsdbObjectDeleted
  else if database_present then
    match dbClosed with
    | none => AttrResult.raised PyExc.attributeError
    | some true => AttrResult.raised PyExc.fsdbDatabaseClosed
    | some false => AttrResult.returned (some attr)
  else AttrResult.returned (some attr)

/-- The state of the `Database` class of src/fsdb/database.py: `name`,
`root_path`, `db_path`, `tables`, `cache` — and nothing else: no `_closed`
flag, no `_deleted` flag. -/
structure Database (T C : Type) where
  name : List Char
  root_path : List Char
  db_path : List Char
  tables : List (List Char × T)
  cache : C

/-- Attribute access on a src `Database` is plain
`object.__getattribute__`: the class defines no guard, so it always
returns the attribute and never raises. -/
def database_getattribute {T C α : Type} (_db : Database T C) (attr : α) : AttrResult α :=
  AttrResult.returned (some attr)

/-- Looking up `_closed` on a src `Database` object: the attribute is
absent (no `__init__` assignment, no class attribute, no `close()` that
could set it). -/
def database_closed_attr {T C : Type} (_db : Database T C) : Option Bool := none

/-- C1: the handle-invalidation claim fails on the code.
(1) Reading any attribute of a deleted `Record` handle returns `None` and
raises nothing — in particular not `FsdbObjectDeleted`: the guard builds
an `FsdbError` and discards it.
(2) On a live `Table` owned by a src `Database`, the guard's dereference
of `database._closed` raises `AttributeError`; `FsdbDatabaseClosed` cannot
arise because the src `Database` defines no `_closed`.
(3) A `Database` handle itself has no guard and no close flag: its
attribute reads never raise, so closing a database cannot make them raise
`FsdbDatabaseClosed`.  The repository's own tests `test_closed_access` and
`test_deleted_access` assert the claimed behavior. -/
theorem c1_handle_invalidation_code_bug :
    (∀ (α : Type) (attr : α) (td : Bool),
      record_getattribute td true attr = AttrResult.returned none
      ∧ ∀ e, record_getattribute td true attr ≠ AttrResult.raised e)
    ∧ (∀ (α : Type) (attr : α) (db : Database Unit Unit),
        table_getattribute false true (database_closed_attr db) attr
          = AttrResult.raised PyExc.attributeError)
    ∧ (∀ (α : Type) (attr : α) (db : Database Unit Unit) (e : PyExc),
        database_getattribute db attr ≠ AttrResult.raised e) := by
  refine ⟨fun α attr td => ⟨?_, fun e => ?_⟩, fun α attr db => rfl, fun α attr db e => ?_⟩
  · simp [record_getattribute]
  · simp [record_getattribute]
  · simp [database_getattribute]

/-! ## 4.5 Record: `Record.create` (record.py lines 58-88) and
`Record.write` (record.py lines 90-126)

Values are Python objects stored in the record's `data.json`; dicts are
insertion-ordered association lists.  `save_values`/`load_values` merge
the table's field defaults (`{k: None for k in fields}`) with the stored
dict (`dict(default_values, **values)`).

Two referenced names are code of this repository missing from src/:
`Field.FIELD_TYPES_IN_DATA` (used at record.py lines 104/108/159, not
defined in src/fsdb/field.py) and `table.main_index` together with
`get_new_sequence_value` (the id-generation of the table variant record.py
was written against).  They are modelled from the spec (see the doc
comments below).  The subsequent cache refresh (lines 118-121, via
`from_cache`/`to_cache` embedded above) and the index update (lines
123-126, a no-op for non-indexed fields) do not touch `data.json` and are
not part of the returned file contents. -/

/-- A Python value stored in a record. -/
inductive PyVal where
  | none
  | int (n : Int)
  | str (s : List Char)
  | bool (b : Bool)
  | dt (d : PyDatetime)
  deriving DecidableEq, Repr

/-- A field's type, from the table schema. -/
inductive FieldType where
  | tbool | tstr | tint | tfloat | tlist | ttuple | tdict | tdatetime | tfile | tfile_list
  deriving DecidableEq, Repr

/-- The per-field data Record needs: its type and its `index` flag
(src/fsdb/field.py line 33). -/
structure FieldInfo where
  type : FieldType
  index : Bool
  deriving DecidableEq, Repr

/-- Modelled from the spec: `Field.FIELD_TYPES_IN_DATA` is referenced by
record.py but missing from src/fsdb/field.py; per §4.3 the scalar types
(`bool|str|int|float|list|tuple|dict|datetime`) are stored in the
record's `data.json`, while `file`/`file_list` are not. -/
def FIELD_TYPES_IN_DATA : List FieldType :=
  [.tbool, .tstr, .tint, .tfloat, .tlist, .ttuple, .tdict, .tdatetime]

/-- `{k: None for k in self.fields}` -/
def fieldDefaults (fields : List (String × FieldInfo)) : List (String × PyVal) :=
  fields.map (fun f => (f.1, PyVal.none))

/-- `dict(base, **extra)`: `base` updated by `extra` (existing keys keep
their position, new keys are appended in `extra`'s order). -/
def dictMerge {K V : Type} [DecidableEq K] (base extra : List (K × V)) : List (K × V) :=
  extra.foldl (fun acc p => dictSet acc p.1 p.2) base

/-- `val2str` applied inside `write` to a non-None datetime value
(record.py lines 110-111); other value shapes would make `strftime` raise
and are outside the states the claims exercise. -/
def writeDatetimeVal : PyVal → PyVal
  | PyVal.dt d => PyVal.str (val2str_datetime d)
  | v => v

/-- `Record.write` (record.py lines 90-126), returning the new
`data.json` contents.

* line 92: a `values` dict containing the main index key (modelled from
  the spec as the `id` field) raises `FsdbError`;
* lines 96-99: `for name in values: ... del values[name]` — deleting a
  key from a dict while iterating over it makes the next step of the
  iterator raise `RuntimeError: dictionary changed size during
  iteration`, so any unknown key aborts the call;
* lines 102-113: if some written field is stored in `data.json`, load it
  (`load_values` merges defaults), set the written keys (datetime values
  pass through `val2str`), and save (`save_values` merges defaults again). -/
def record_write (main_index : String) (fields : List (String × FieldInfo))
    (disk : List (String × PyVal)) (values : List (String × PyVal)) :
    Except PyExc (List (String × PyVal)) :=
  if main_index ∈ values.map Prod.fst then Except.error PyExc.fsdbError
  else if ¬ (values.all (fun p => (dictGet fields p.1).isSome)) then
    Except.error PyExc.runtimeError
  else
    let inData := values.filter (fun p =>
      match dictGet fields p.1 with
      | some fi => decide (fi.type ∈ FIELD_TYPES_IN_DATA)
      | none => false)
    if inData.isEmpty then Except.ok disk
    else
      let data0 := dictMerge (fieldDefaults fields) disk
      let data1 := inData.foldl (fun acc p =>
        match dictGet fields p.1 with
        | some fi =>
          if fi.type = FieldType.tdatetime then
            dictSet acc p.1 (writeDatetimeVal p.2)
          else dictSet acc p.1 p.2
        | none => acc) data0
      Except.ok (dictMerge (fieldDefaults fields) data1)

/-- `Record.create` (record.py lines 58-88), returning the new
`data.json` contents.

* lines 60-64: take the index from `values` if present (removing the
  key), else ask the id field for a new one (`get_new_sequence_value` is
  missing from src/fsdb/field.py; modelled from the spec's `get_new_id`
  as the caller-supplied `newIndex`);
* lines 66-68: if a record directory with that `index_str` exists, raise
  `FsdbError` (`existing` is the set of directory names);
* lines 76-80: the initial `data.json` holds every field as `None` except
  the main index;
* line 86: the remaining `values` are applied through `write`. -/
def record_create (main_index : String) (fields : List (String × FieldInfo))
    (existing : List (List Char)) (values : List (String × PyVal))
    (newIndex : PyVal) (indexStr : PyVal → List Char) :
    Except PyExc (List (String × PyVal)) :=
  let iv : PyVal × List (String × PyVal) :=
    match dictGet values main_index with
    | some v => (v, dictDel values main_index)
    | none => (newIndex, values)
  if indexStr iv.1 ∈ existing then Except.error PyExc.fsdbError
  else
    let disk0 := dictMerge (fieldDefaults fields)
      (dictSet (fieldDefaults fields) main_index iv.1)
    record_write main_index fields disk0 iv.2

/-- The schema of the table used by the C2/C6 scenarios: the mandatory
`id`, `create_datetime`, `modify_datetime` fields (Table.validate,
table.py lines 85-93) plus one user field `val1`. -/
def c2fields : List (String × FieldInfo) :=
  [("id", ⟨FieldType.tint, true⟩), ("val1", ⟨FieldType.tstr, false⟩),
   ("create_datetime", ⟨FieldType.tdatetime, false⟩),
   ("modify_datetime", ⟨FieldType.tdatetime, false⟩)]

/-- `val2str` for the int id field. -/
def intIndexStr : PyVal → List Char
  | PyVal.int (Int.ofNat n) => padNum 1 n
  | _ => []

/-- C2: the claim fails on the code — `Record.create` never touches
`create_datetime` and `Record.write` never touches `modify_datetime`:
after `create(table, {'val1': 'x'})` both stamps are `None` in
`data.json`, and after a further successful `write({'val1': 'y'})`
`modify_datetime` is still `None` (unchanged from its pre-write value),
contradicting the claim that create sets `create_datetime` and every
successful write updates `modify_datetime`. -/
theorem c2_datetimes_never_set :
    ∃ disk : List (String × PyVal),
      record_create "id" c2fields [] [("val1", PyVal.str ['x'])]
        (PyVal.int 1) intIndexStr = Except.ok disk
      ∧ dictGet disk "create_datetime" = some PyVal.none
      ∧ dictGet disk "modify_datetime" = some PyVal.none
      ∧ ∃ disk2 : List (String × PyVal),
          record_write "id" c2fields disk [("val1", PyVal.str ['y'])] = Except.ok disk2
          ∧ dictGet disk2 "modify_datetime" = some PyVal.none
          ∧ dictGet disk2 "modify_datetime" = dictGet disk "modify_datetime" := by
  refine ⟨[("id", PyVal.int 1), ("val1", PyVal.str ['x']),
      ("create_datetime", PyVal.none), ("modify_datetime", PyVal.none)],
    rfl, rfl, rfl,
    [("id", PyVal.int 1), ("val1", PyVal.str ['y']),
      ("create_datetime", PyVal.none), ("modify_datetime", PyVal.none)],
    rfl, rfl, rfl⟩

/-- C6: `Record.write` with a `values` dict containing the id key raises
`FsdbError` (this half of the claim holds), but with an unknown field
name it raises `RuntimeError` — the warn-then-`del values[name]` inside
`for name in values` mutates the dict during iteration — instead of
warning, dropping the key and completing the write of the remaining
valid keys as the claim states. -/
theorem c6_write_unknown_key_code_bug :
    record_write "id" c2fields
      [("id", PyVal.int 1), ("val1", PyVal.none),
       ("create_datetime", PyVal.none), ("modify_datetime", PyVal.none)]
      [("id", PyVal.int 2)] = Except.error PyExc.fsdbError
    ∧ record_write "id" c2fields
      [("id", PyVal.int 1), ("val1", PyVal.none),
       ("create_datetime", PyVal.none), ("modify_datetime", PyVal.none)]
      [("bogus", PyVal.int 7)] = Except.error PyExc.runtimeError :=
  ⟨rfl, rfl⟩

/-! ## 4.6 Table: `Table.search_records` (table.py lines 166-257) and
`tools.validate_domain` (tools.py lines 28-68)

```python
# validate domain  # TODO: make better
for dom in domain:
    if isinstance(dom, str):
        if dom not in ['&', '|']:
            FsdbError('Invalid domain logic operator ...')   # constructed, never raised
    else:
        dom_field, dom_eq, dom_value = tuple(dom)
        if dom_field not in self.fields:
            FsdbError('Invalid field name ...')              # constructed, never raised
        ...
        if dom_eq in ['in', 'not in'] and not isinstance(dom_value, list):
            FsdbError("Domain with 'in' ...")                # constructed, never raised
```

The validation block of `search_records` builds `FsdbError` instances and
discards them — nothing is raised, and `tools.validate_domain` (which does
raise `FsdbDomainError`) is never called.  The per-record filtering follows:
`Record(rid, self)` construction and `record.read([f])[f]` are abstracted
by the oracle `getField`; for an unknown field name, `record.read` warns,
drops the name and returns a dict without it, so the `[dom_field]` lookup
raises `KeyError`. -/

/-- A Python value appearing in a domain filter. -/
inductive SearchVal where
  | int (n : Int)
  | vlist (l : List Int)
  | str (s : String)
  deriving DecidableEq, Repr

/-- An element of a search domain: an operator token (any string) or a
`(field, op, value)` filter triple. -/
inductive SearchDom where
  | op (s : String)
  | filter (field : String) (eq : String) (value : SearchVal)
  deriving DecidableEq, Repr

/-- The comparison dispatch of `search_records` (table.py lines 205-223)
on an `int` field value: `==`/`!=` across types are `False`/`True` in
Python, `in`/`not in` need a container (`int in int` and `int in str`
raise `TypeError` for an int member), order comparisons between an int
and a non-int raise `TypeError`, and an unknown comparison operator
raises `FsdbError('Invalid domain! ...')`. -/
def pyCompare (eqOp : String) (fv : Int) (dv : SearchVal) : Except PyExc Bool :=
  if eqOp = "=" then
    Except.ok (match dv with | SearchVal.int n => decide (fv = n) | _ => false)
  else if eqOp = "!=" then
    Except.ok (match dv with | SearchVal.int n => decide (fv ≠ n) | _ => true)
  else if eqOp = "in" then
    match dv with
    | SearchVal.vlist l => Except.ok (decide (fv ∈ l))
    | _ => Except.error PyExc.typeError
  else if eqOp = "not in" then
    match dv with
    | SearchVal.vlist l => Except.ok (decide (fv ∉ l))
    | _ => Except.error PyExc.typeError
  else if eqOp = ">" then
    match dv with
    | SearchVal.int n => Except.ok (decide (fv > n))
    | _ => Except.error PyExc.typeError
  else if eqOp = ">=" then
    match dv with
    | SearchVal.int n => Except.ok (decide (fv ≥ n))
    | _ => Except.error PyExc.typeError
  else if eqOp = "<" then
    match dv with
    | SearchVal.int n => Except.ok (decide (fv < n))
    | _ => Except.error PyExc.typeError
  else if eqOp = "<=" then
    match dv with
    | SearchVal.int n => Except.ok (decide (fv ≤ n))
    | _ => Except.error PyExc.typeError
  else Except.error PyExc.fsdbError

/-- Build `domain_processed` for one record (table.py lines 192-223):
operator strings are kept, each filter becomes the boolean result of its
comparison; the `id` field is answered from the record id directly. -/
def buildProcessed (getField : Int → String → Except PyExc Int) (rid : Int) :
    List SearchDom → Except PyExc (List DomElem)
  | [] => Except.ok []
  | SearchDom.op s :: rest =>
    match buildProcessed getField rid rest with
    | Except.error e => Except.error e
    | Except.ok l => Except.ok (DomElem.str s :: l)
  | SearchDom.filter f eqOp dv :: rest =>
    match (if f = "id" then Except.ok rid else getField rid f) with
    | Except.error e => Except.error e
    | Except.ok fv =>
      match pyCompare eqOp fv dv with
      | Except.error e => Except.error e
      | Except.ok b =>
        match buildProcessed getField rid rest with
        | Except.error e => Except.error e
        | Except.ok l => Except.ok (DomElem.bool b :: l)

/-- One pass of the processed-domain reduction of `search_records`
(table.py lines 226-249) after the first position: looks for the first
adjacent boolean pair `[i], [i+1]` with `i ≥ 1`; `prev` is `[i-1]`.  When
a pair is found, `op` is `prev` if it is a string else `'&'`; positions
`i-1 .. i+1` collapse to the folded boolean (`[i-1] = out; pop(i+1);
pop(i)`); an operator other than `&`/`|` raises `FsdbError`.  Returns
`none` when no pair exists. -/
def searchStepAux : DomElem → List DomElem → Except PyExc (Option (List DomElem))
  | prev, x :: y :: t =>
    match x.getBool, y.getBool with
    | some b1, some b2 =>
      match prev.getStr with
      | some s =>
        if s = "&" then Except.ok (some (DomElem.bool (b1 && b2) :: t))
        else if s = "|" then Except.ok (some (DomElem.bool (b1 || b2) :: t))
        else Except.error PyExc.fsdbError
      | none => Except.ok (some (DomElem.bool (b1 && b2) :: t))
    | _, _ =>
      match searchStepAux x (y :: t) with
      | Except.error e => Except.error e
      | Except.ok Option.none => Except.ok Option.none
      | Except.ok (some rest) => Except.ok (some (prev :: rest))
  | _, _ => Except.ok Option.none

/-- The full scan for the first adjacent boolean pair: at `i = 0` the
operator defaults to `'&'` and the pair collapses in place (`pop(i+1);
[i] = out`). -/
def searchStep : List DomElem → Except PyExc (Option (List DomElem))
  | x :: y :: t =>
    match x.getBool, y.getBool with
    | some b1, some b2 => Except.ok (some (DomElem.bool (b1 && b2) :: t))
    | _, _ =>
      match searchStepAux x (y :: t) with
      | Except.error e => Except.error e
      | Except.ok Option.none => Except.ok Option.none
      | Except.ok (some rest) => Except.ok (some (x :: rest))
  | _ => Except.ok Option.none

/-- The `while len(domain_processed) >= 2` loop (table.py lines 226-249),
with fuel (each productive pass removes at least one element, so fuel
`length` suffices). -/
def searchEvalLoop : Nat → List DomElem → Except PyExc (List DomElem)
  | 0, d => Except.ok d
  | n + 1, d =>
    if d.length ≥ 2 then
      match searchStep d with
      | Except.error e => Except.error e
      | Except.ok Option.none => Except.ok d
      | Except.ok (some d') => searchEvalLoop n d'
    else Except.ok d

/-- Reduce `domain_processed` and produce the final boolean (table.py
lines 251-254): more than one leftover element raises `FsdbError`, the
result is `bool(domain_processed[0])` (Python truthiness — an operator
string left alone is truthy!); an empty processed domain would raise
`IndexError` (unreachable from `search_records`, whose domain is
non-empty on this path). -/
def searchEvalProcessed (d : List DomElem) : Except PyExc Bool :=
  match searchEvalLoop d.length d with
  | Except.error e => Except.error e
  | Except.ok d' =>
    if d'.length > 1 then Except.error PyExc.fsdbError
    else match d' with
      | [x] => Except.ok x.truthy
      | _ => Except.error PyExc.indexError

/-- The per-record filtering loop of `search_records` (table.py lines
190-262): records whose processed domain evaluates truthy are collected,
stopping early once `limit` is reached. -/
def searchFilter (getField : Int → String → Except PyExc Int)
    (domain : List SearchDom) (limit : Option Nat) :
    List Int → List Int → Except PyExc (List Int)
  | [], acc => Except.ok acc
  | rid :: rest, acc =>
    match buildProcessed getField rid domain with
    | Except.error e => Except.error e
    | Except.ok dp =>
      match searchEvalProcessed dp with
      | Except.error e => Except.error e
      | Except.ok b =>
        if b then
          match limit with
          | some n =>
            if acc.length + 1 ≥ n then Except.ok (acc ++ [rid])
            else searchFilter getField domain limit rest (acc ++ [rid])
          | none => searchFilter getField domain limit rest (acc ++ [rid])
        else searchFilter getField domain limit rest acc

/-- `Table.search_records` (table.py lines 166-257).  The leading domain
validation block (lines 170-182) constructs `FsdbError` instances for
malformed entries and immediately discards them — no `raise` appears —
so it has no effect and is a no-op here; `tools.validate_domain` is never
called.  An empty domain returns `record_ids[:limit]`; `limit` is
normalized to `None` when falsy (lines 168-169). -/
def search_records (recordIds : List Int)
    (getField : Int → String → Except PyExc Int)
    (domain : List SearchDom) (limit : Option Nat) : Except PyExc (List Int) :=
  let limitN : Option Nat :=
    match limit with
    | some n => if n ≠ 0 then some n else none
    | none => none
  if domain.isEmpty then
    Except.ok (match limitN with | some n => recordIds.take n | none => recordIds)
  else
    searchFilter getField domain limitN recordIds []

/-- `tools.validate_domain` (tools.py lines 28-68) on the well-shaped
fragment expressible as `SearchDom` (the source additionally rejects
entries that are not strings/tuples/lists or have length ≠ 3, which this
element type cannot even represent): operator strings other than `&`/`|`,
unknown field names and `in`/`not in` with a non-list value raise
`FsdbDomainError`; then the fake-processed form (filters replaced by
`True`) must reduce under `evaluate_domain`. -/
def validate_domain (validFields : List String) (domain : List SearchDom) :
    Except Unit Unit :=
  if domain.isEmpty then Except.ok ()
  else if domain.any (fun d =>
      match d with
      | SearchDom.op s => decide (s ≠ "&" ∧ s ≠ "|")
      | SearchDom.filter f eqOp v =>
        decide (f ∉ validFields) ||
          (decide (eqOp = "in" ∨ eqOp = "not in") &&
            !(match v with | SearchVal.vlist _ => true | _ => false))) then
    Except.error ()
  else
    match evaluate_domain (domain.map (fun d =>
      match d with
      | SearchDom.op s => DomElem.str s
      | SearchDom.filter _ _ _ => DomElem.bool true)) with
    | Except.error _ => Except.error ()
    | Except.ok _ => Except.ok ()

/-- C4: the claim fails on the code.  `search_records` never raises
`FsdbDomainError` for a malformed domain: its validation block only
constructs exception objects without raising them.  In particular
(1) on an empty table EVERY domain — malformed or not — yields `ok []`
with no error; (2) with a record present, the malformed domain `['x']`
silently matches and RETURNS the record (a lone operator string is
truthy); an unknown field name ends in `KeyError` and an `in` filter with
a non-list value in `TypeError` — never `FsdbDomainError`; while
(3) `tools.validate_domain`, which `search_records` never calls, rejects
all three malformed domains. -/
theorem c4_search_no_domain_error :
    (∀ (getField : Int → String → Except PyExc Int) (domain : List SearchDom)
        (limit : Option Nat),
      search_records [] getField domain limit = Except.ok [])
    ∧ search_records [5] (fun _ _ => Except.error PyExc.keyError)
        [SearchDom.op "x"] Option.none = Except.ok [5]
    ∧ search_records [5] (fun _ _ => Except.error PyExc.keyError)
        [SearchDom.filter "bogus" "=" (SearchVal.int 1)] Option.none
        = Except.error PyExc.keyError
    ∧ search_records [5] (fun _ _ => Except.error PyExc.keyError)
        [SearchDom.filter "id" "in" (SearchVal.int 1)] Option.none
        = Except.error PyExc.typeError
    ∧ validate_domain ["id"] [SearchDom.op "x"] = Except.error ()
    ∧ validate_domain ["id"] [SearchDom.filter "bogus" "=" (SearchVal.int 1)]
        = Except.error ()
    ∧ validate_domain ["id"] [SearchDom.filter "id" "in" (SearchVal.int 1)]
        = Except.error () := by
  refine ⟨?_, rfl, rfl, rfl, rfl, rfl, rfl⟩
  intro getField domain limit
  cases domain with
  | cons d rest => rfl
  | nil =>
    cases limit with
    | none => rfl
    | some n =>
      unfold search_records
      dsimp only
      by_cases hn : n ≠ 0
      · rw [if_pos hn]
        simp [List.take_nil]
      · rw [if_neg hn]
        rfl
